import Mathlib

/-!
Shallow embedding of the session-aware quote-refresh and position
reconciliation engine of the quantrade dashboard (the `AccountPage`
component: `refreshTradeSession`, `refreshQuote`, `fetchAccountData`),
together with proofs of the specified properties.

Modelling conventions:
* JavaScript numbers are idealised as rationals (`ℚ`); a numeric result
  that JavaScript would render as `NaN` is modelled as `none : Option ℚ`.
* A JavaScript field that may hold a non-numeric value is modelled by
  `JsVal`; an absent field (`undefined`) is `none : Option JsVal`.
* The quote payload and the per-symbol price map are association lists.
* A thrown-and-caught exception inside the reconciliation pass is
  modelled by the pass body returning `none`, in which case the caller
  leaves the ledger state unchanged (the `catch` branch).
-/

namespace Quantrade

/-- A JavaScript value as it can appear in a quote-record field:
a number, `null`, or a string. An absent field is represented by
`Option.none` at the use site. -/
inductive JsVal where
  | num (q : ℚ)
  | null
  | str (s : String)
deriving DecidableEq

/-- JavaScript truthiness of a `JsVal`: `0`, `null` and `""` are falsy. -/
def jsTruthy : JsVal → Bool
  | JsVal.num q => q ≠ 0
  | JsVal.null => false
  | JsVal.str s => s ≠ ""

/-- Numeric coercion of a possibly-absent `JsVal`, as JavaScript
arithmetic performs it; `none` is the model of `NaN`.
(`undefined` coerces to `NaN`, `null` to `0`, the empty string to `0`;
non-empty strings are treated as `NaN` here — the quote payload carries
numbers, so string coercion is never exercised by any theorem below.) -/
def toNumberO : Option JsVal → Option ℚ
  | none => none
  | some (JsVal.num q) => some q
  | some JsVal.null => some 0
  | some (JsVal.str s) => if s = "" then some 0 else none

/-- `NaN`-propagating addition on modelled JavaScript numbers. -/
def jAdd : Option ℚ → Option ℚ → Option ℚ
  | some a, some b => some (a + b)
  | _, _ => none

/-- `NaN`-propagating subtraction on modelled JavaScript numbers. -/
def jSub : Option ℚ → Option ℚ → Option ℚ
  | some a, some b => some (a - b)
  | _, _ => none

/-- `NaN`-propagating multiplication on modelled JavaScript numbers. -/
def jMul : Option ℚ → Option ℚ → Option ℚ
  | some a, some b => some (a * b)
  | _, _ => none

/-- One symbol's quote record: field name (pattern `<session>_price`)
to value. -/
abbrev QuoteRec := List (String × JsVal)

/-- The payload of `api.getQuotePrice`: symbol to quote record. -/
abbrev PriceMap := List (String × QuoteRec)

/-- A position of the ledger.  `price` and `pnl` are the derived fields
written only by the reconciliation pass; both start absent (`none`).
`pnl`'s inner layer distinguishes a computed `NaN` (`some none`) from a
never-computed field (`none`). -/
structure Position where
  symbol : String
  market : String
  quantity : ℚ
  cost_price : ℚ
  price : Option JsVal := none
  pnl : Option (Option ℚ) := none
deriving DecidableEq

/-- The account-page state relevant to reconciliation: the active
account context (`selectedAccount`), the position list and the two
market P&L aggregates (`marketPnl.US`, `marketPnl.HK`). -/
structure LedgerState where
  selectedAccount : String
  positions : List Position
  mpnlUS : Option ℚ
  mpnlHK : Option ℚ
deriving DecidableEq

/-- Market derivation at ingestion, from `fetchAccountData`:
`p.symbol.includes('.') ? p.symbol.split('.')[1] : 'US'`. -/
def deriveMarket (sym : String) : String :=
  if sym.contains '.' then (sym.splitOn ".").getD 1 "" else "US"

/-- A raw position record as seeded by `fetchAccountData`, with `market`
derived from the symbol and the derived fields absent. -/
def seedPosition (sym : String) (qty cost : ℚ) : Position :=
  { symbol := sym, market := deriveMarket sym, quantity := qty,
    cost_price := cost, price := none, pnl := none }

/-- The session label stored by `refreshTradeSession` via
`setTradeSession`, as a function of the ET minute-of-day
(`hours * 60 + minutes`).  Note the 20:00–04:00 window stores
`post_market`: the source substitutes post-market for the overnight
session because the overnight quote feed is unavailable. -/
def sessionLabel (t : ℕ) : String :=
  if 570 ≤ t ∧ t < 960 then "regular"
  else if 960 ≤ t ∧ t < 1200 then "post_market"
  else if 1200 ≤ t ∨ t < 240 then "post_market"
  else "pre_market"

/-- The value `refreshTradeSession` returns, used by `refreshQuote` as
the quote-field key stem (`ts + "_price"`).  It differs from the stored
label only in the regular window, where it is `"current"`. -/
def sessionKey (t : ℕ) : String :=
  if 570 ≤ t ∧ t < 960 then "current"
  else if 960 ≤ t ∧ t < 1200 then "post_market"
  else if 1200 ≤ t ∨ t < 240 then "post_market"
  else "pre_market"

/-- The price-selection expression of `refreshQuote`:
`priceMap[p.symbol][ts + "_price"] || priceMap[p.symbol]["regular_price"]`.
A falsy session-field value (absent, `0`, `null`, `""`) falls back to the
`regular_price` field. -/
def selectPrice (ts : String) (q : QuoteRec) : Option JsVal :=
  match q.lookup (ts ++ "_price") with
  | some v => if jsTruthy v then some v else q.lookup "regular_price"
  | none => q.lookup "regular_price"

/-- The per-position P&L of `refreshQuote`:
`(price - p.cost_price) * p.quantity` on the selected price. -/
def pnlVal (ts : String) (q : QuoteRec) (p : Position) : Option ℚ :=
  jMul (jSub (toNumberO (selectPrice ts q)) (some p.cost_price)) (some p.quantity)

/-- The updated position object `refreshQuote` builds:
`{...p, cost_price: p.cost_price, price: price, pnl: pnl}`. -/
def updatePos (ts : String) (q : QuoteRec) (p : Position) : Position :=
  { p with price := selectPrice ts q, pnl := some (pnlVal ts q p) }

/-- The body of `refreshQuote`'s `try` block after the fetch resolves:
maps over the captured positions, accumulating `mpnl[p.market] += pnl`
into the `US`/`HK` slots.  A symbol missing from the price map makes
`priceMap[p.symbol][...]` throw a `TypeError`; that exception (caught by
the surrounding `catch`) is modelled by the result `none`. -/
def runUpdate (ts : String) (pm : PriceMap) :
    List Position → Option ℚ → Option ℚ → Option (List Position × Option ℚ × Option ℚ)
  | [], us, hk => some ([], us, hk)
  | p :: rest, us, hk =>
    match pm.lookup p.symbol with
    | none => none
    | some q =>
      let pv := pnlVal ts q p
      let us' := if p.market = "US" then jAdd us pv else us
      let hk' := if p.market = "HK" then jAdd hk pv else hk
      match runUpdate ts pm rest us' hk' with
      | none => none
      | some (ps, u, h) => some (updatePos ts q p :: ps, u, h)

/-- The continuation of `refreshQuote` that runs when a quote response
arrives: it recomputes positions and aggregates from the position list
captured when the request was issued, and stores them with
`setmarketPnl` / `setPositions`.  The first argument is the account
context under which the request was issued; the source performs no
check of it against the currently active context, so the parameter is
(faithfully) unused. -/
def applyQuoteResponse (_origCtx : String) (capturedPos : List Position)
    (t : ℕ) (pm : PriceMap) (s : LedgerState) : LedgerState :=
  match runUpdate (sessionKey t) pm capturedPos (some 0) (some 0) with
  | none => s
  | some (ps, us, hk) => { s with positions := ps, mpnlUS := us, mpnlHK := hk }

/-- One whole reconciliation pass of `refreshQuote` on the current
state: no-op on an empty position list; no-op when the fetch fails
(`fetched = none`, covering network errors and payloads on which the
body throws before the `await` resolves to an object); otherwise the
response is applied. -/
def refreshQuotePass (t : ℕ) (fetched : Option PriceMap) (s : LedgerState) : LedgerState :=
  if s.positions.isEmpty then s
  else
    match fetched with
    | none => s
    | some pm => applyQuoteResponse s.selectedAccount s.positions t pm s

/-- The synchronous start of `fetchAccountData`, run on every account
switch: `setmarketPnl({US: 0, HK: 0}); setPositions([])` under the new
`selectedAccount`. -/
def switchAccountReset (newCtx : String) (_s : LedgerState) : LedgerState :=
  { selectedAccount := newCtx, positions := [], mpnlUS := some 0, mpnlHK := some 0 }

/-- Fold accumulating, starting from `acc`, the computed `pnl` values of
the positions of market `m`, in list order (mirroring
`mpnl[p.market] += pnl`); positions whose `pnl` field is absent
contribute nothing. -/
def accPnl (m : String) (acc : Option ℚ) (ps : List Position) : Option ℚ :=
  ps.foldl
    (fun a p =>
      if p.market = m then
        match p.pnl with
        | some v => jAdd a v
        | none => a
      else a)
    acc

/-- Sum of the per-position unrealized P&L values over the positions of
market `m`. -/
def pnlSum (m : String) (ps : List Position) : Option ℚ :=
  accPnl m (some 0) ps

/-- The Market P&L invariant: each stored aggregate equals the sum of
the per-position unrealized P&L values over the positions of its
market. -/
def mpnlInv (s : LedgerState) : Prop :=
  s.mpnlUS = pnlSum "US" s.positions ∧ s.mpnlHK = pnlSum "HK" s.positions

instance (s : LedgerState) : Decidable (mpnlInv s) := by
  unfold mpnlInv; infer_instance

/-- The per-position update a fully-covering pass performs (`updOf`),
used to state the frame property: update from the symbol's record when
one exists. -/
def updOf (ts : String) (pm : PriceMap) (p : Position) : Position :=
  match pm.lookup p.symbol with
  | some q => updatePos ts q p
  | none => p

/-- A quote record is spec-shaped when every field follows the
`<session>_price` naming of the backend payload. -/
def wfQuoteRec (q : QuoteRec) : Prop :=
  ∀ kv ∈ q, kv.1 ∈ ["pre_market_price", "regular_price", "post_market_price", "overnight_price"]

instance (q : QuoteRec) : Decidable (wfQuoteRec q) := by
  unfold wfQuoteRec; infer_instance

/-! ### Concrete scenario data used by the individual claims -/

/-- The position held under the old context `"paper-v1"`, captured by
the in-flight `refreshQuote` closure when its request was issued. -/
def c1OldPos : Position :=
  { symbol := "AAPL", market := "US", quantity := 50, cost_price := 180 }

/-- The quote payload of the stale C1 response. -/
def c1Pm : PriceMap := [("AAPL", [("regular_price", JsVal.num 186)])]

/-- The state right after `switchAccount("paper-v2")`: the new context
is active and its Position Ledger has just been cleared. -/
def c1NewState : LedgerState :=
  switchAccountReset "paper-v2"
    { selectedAccount := "paper-v1", positions := [c1OldPos],
      mpnlUS := some 0, mpnlHK := some 0 }

/-- A freshly seeded two-market ledger for the C2 witness. -/
def c2Seed : LedgerState :=
  { selectedAccount := "paper",
    positions := [{ symbol := "AAPL", market := "US", quantity := 50, cost_price := 180 },
                  { symbol := "0700.HK", market := "HK", quantity := 100, cost_price := 300 }],
    mpnlUS := some 0, mpnlHK := some 0 }

/-- The ledger before the C4 pass: two US positions, neither priced. -/
def c4State : LedgerState :=
  { selectedAccount := "paper",
    positions := [{ symbol := "AAPL", market := "US", quantity := 50, cost_price := 180 },
                  { symbol := "MSFT", market := "US", quantity := 10, cost_price := 100 }],
    mpnlUS := some 0, mpnlHK := some 0 }

/-- A price map covering only `AAPL`, a strict subset of the held
symbols of `c4State`. -/
def c4Pm : PriceMap := [("AAPL", [("regular_price", JsVal.num 185)])]

/-- The prior state for the C7 witness: `AAPL` already carries
`current_price = 185.40` (= 927/5) from an earlier pass. -/
def c7State : LedgerState :=
  { selectedAccount := "paper",
    positions := [{ symbol := "AAPL", market := "US", quantity := 50,
                    cost_price := 180, price := some (JsVal.num (927/5)),
                    pnl := some (some 270) }],
    mpnlUS := some 270, mpnlHK := some 0 }

/-- A payload that mentions only `MSFT`, so the C7 body throws on
`AAPL`. -/
def c7Pm : PriceMap := [("MSFT", [("regular_price", JsVal.num 100)])]

/-- The C8 scenario position. -/
def c8Pos : Position :=
  { symbol := "AAPL", market := "US", quantity := 50, cost_price := 180 }

/-- The C8 scenario quote payload: `{AAPL: {regular_price: 185.40}}`. -/
def c8Pm : PriceMap := [("AAPL", [("regular_price", JsVal.num (927/5))])]

/-- The C8 scenario ledger. -/
def c8State : LedgerState :=
  { selectedAccount := "paper", positions := [c8Pos], mpnlUS := some 0, mpnlHK := some 0 }

/-- The position the C8 pass produces: price 185.40, P&L 270.00. -/
def c8After : Position :=
  { symbol := "AAPL", market := "US", quantity := 50, cost_price := 180,
    price := some (JsVal.num (927/5)), pnl := some (some 270) }

/-! ### Basic facts about the per-position update -/

lemma updatePos_symbol (ts : String) (q : QuoteRec) (p : Position) :
    (updatePos ts q p).symbol = p.symbol := rfl

lemma updatePos_market (ts : String) (q : QuoteRec) (p : Position) :
    (updatePos ts q p).market = p.market := rfl

lemma updatePos_pnl (ts : String) (q : QuoteRec) (p : Position) :
    (updatePos ts q p).pnl = some (pnlVal ts q p) := rfl

lemma updatePos_idem (ts : String) (q : QuoteRec) (p : Position) :
    updatePos ts q (updatePos ts q p) = updatePos ts q p := rfl

lemma updOf_symbol (ts : String) (pm : PriceMap) (p : Position) :
    (updOf ts pm p).symbol = p.symbol := by
  unfold updOf
  cases pm.lookup p.symbol <;> rfl

lemma updOf_idem (ts : String) (pm : PriceMap) (p : Position) :
    updOf ts pm (updOf ts pm p) = updOf ts pm p := by
  unfold updOf
  cases h : pm.lookup p.symbol with
  | none => simp [h]
  | some q => simp [updatePos_symbol, h, updatePos_idem]

lemma accPnl_cons (m : String) (acc : Option ℚ) (p : Position) (l : List Position) :
    accPnl m acc (p :: l) =
      accPnl m
        (if p.market = m then
          match p.pnl with
          | some v => jAdd acc v
          | none => acc
        else acc) l := rfl

/-! ### Outcomes of the reconciliation body -/

lemma runUpdate_missing (ts : String) (pm : PriceMap) :
    ∀ (l : List Position) (us hk : Option ℚ),
      (∃ p ∈ l, pm.lookup p.symbol = none) →
      runUpdate ts pm l us hk = none := by
  intro l
  induction l with
  | nil => intro us hk h; simp at h
  | cons p rest ih =>
    intro us hk h
    rcases h with ⟨p0, hmem, hp0⟩
    rcases List.mem_cons.mp hmem with hhead | htail
    · subst hhead
      simp [runUpdate, hp0]
    · cases hq : pm.lookup p.symbol with
      | none => simp [runUpdate, hq]
      | some q =>
        simp only [runUpdate, hq]
        rw [ih _ _ ⟨p0, htail, hp0⟩]

lemma runUpdate_covered (ts : String) (pm : PriceMap) :
    ∀ (l : List Position) (us hk : Option ℚ),
      (∀ p ∈ l, (pm.lookup p.symbol).isSome) →
      runUpdate ts pm l us hk =
        some (l.map (updOf ts pm),
          accPnl "US" us (l.map (updOf ts pm)),
          accPnl "HK" hk (l.map (updOf ts pm))) := by
  intro l
  induction l with
  | nil => intro us hk _; rfl
  | cons p rest ih =>
    intro us hk hcov
    obtain ⟨q, hq⟩ := Option.isSome_iff_exists.mp (hcov p (List.mem_cons_self p rest))
    have hrest : ∀ p' ∈ rest, (pm.lookup p'.symbol).isSome := fun p' hp' =>
      hcov p' (List.mem_cons_of_mem p hp')
    simp only [runUpdate, hq, ih _ _ hrest, List.map_cons]
    have hupd : updOf ts pm p = updatePos ts q p := by unfold updOf; rw [hq]
    rw [hupd, accPnl_cons, accPnl_cons]
    rfl

/-! ### Outcomes of a whole reconciliation pass -/

lemma pass_fetch_failure (t : ℕ) (s : LedgerState) :
    refreshQuotePass t none s = s := by
  unfold refreshQuotePass
  split <;> rfl

lemma pass_body_throws (t : ℕ) (pm : PriceMap) (s : LedgerState)
    (h : runUpdate (sessionKey t) pm s.positions (some 0) (some 0) = none) :
    refreshQuotePass t (some pm) s = s := by
  simp only [refreshQuotePass, applyQuoteResponse, h]
  split <;> rfl

lemma pass_missing_symbol (t : ℕ) (pm : PriceMap) (s : LedgerState)
    (h : ∃ p ∈ s.positions, pm.lookup p.symbol = none) :
    refreshQuotePass t (some pm) s = s :=
  pass_body_throws t pm s (runUpdate_missing _ pm _ _ _ h)

lemma pass_covered (t : ℕ) (pm : PriceMap) (s : LedgerState)
    (hne : ¬s.positions.isEmpty)
    (hcov : ∀ p ∈ s.positions, (pm.lookup p.symbol).isSome) :
    refreshQuotePass t (some pm) s =
      { s with
        positions := s.positions.map (updOf (sessionKey t) pm),
        mpnlUS := accPnl "US" (some 0) (s.positions.map (updOf (sessionKey t) pm)),
        mpnlHK := accPnl "HK" (some 0) (s.positions.map (updOf (sessionKey t) pm)) } := by
  simp only [refreshQuotePass, applyQuoteResponse, if_neg hne,
    runUpdate_covered (sessionKey t) pm s.positions (some 0) (some 0) hcov]

/-! ### Session clock (claims C5 and C6) -/

/-- C5 (counterexample): at 21:00 ET, inside the claimed Overnight
window 20:00–04:00, the resolved session label is `post_market`, not
`overnight`, refuting the claim that this window resolves to
Overnight. -/
theorem C5_overnight_window_is_post_market :
    (1200 ≤ 1260 ∧ 1260 < 1440) ∧
    sessionLabel 1260 ≠ "overnight" ∧ sessionLabel 1260 = "post_market" := by
  decide

/-- C5 (amended): the US-market session boundaries in ET minute-of-day
are 04:00–09:30 PreMarket, 09:30–16:00 Regular, 16:00–20:00 PostMarket,
and 20:00–04:00 (wrapping midnight) PostMarket as well — the overnight
window is labeled `post_market` because the overnight feed is
unavailable.  Each boundary timestamp (09:30, 16:00) belongs to the
session that begins at that minute. -/
theorem C5_session_boundaries (t : ℕ) (ht : t < 1440) :
    ((240 ≤ t ∧ t < 570) → sessionLabel t = "pre_market")
    ∧ ((570 ≤ t ∧ t < 960) → sessionLabel t = "regular")
    ∧ ((960 ≤ t ∧ t < 1200) → sessionLabel t = "post_market")
    ∧ ((1200 ≤ t ∨ t < 240) → sessionLabel t = "post_market")
    ∧ sessionLabel 570 = "regular" ∧ sessionLabel 960 = "post_market" := by
  refine ⟨?_, ?_, ?_, ?_, by decide, by decide⟩ <;>
    (intro h; unfold sessionLabel; split_ifs <;> first | rfl | omega)

/-- C5 witness: concrete instances of the amended boundary map. -/
theorem C5_session_boundaries_witness :
    sessionLabel 300 = "pre_market" ∧ sessionLabel 600 = "regular"
    ∧ sessionLabel 1000 = "post_market" ∧ sessionLabel 100 = "post_market" := by
  obtain ⟨hp, _, _, _, _, _⟩ := C5_session_boundaries 300 (by decide)
  obtain ⟨_, hr, _, _, _, _⟩ := C5_session_boundaries 600 (by decide)
  obtain ⟨_, _, ho, _, _, _⟩ := C5_session_boundaries 1000 (by decide)
  obtain ⟨_, _, _, hn, _, _⟩ := C5_session_boundaries 100 (by decide)
  exact ⟨hp (by decide), hr (by decide), ho (by decide), hn (Or.inr (by decide))⟩

/-- C6 (counterexample): at 22:00 ET, inside the Overnight window, the
session label the Session Clock resolves is `post_market`, not
`overnight` — the PostMarket substitution happens inside the clock and
does change the label, refuting the claim as stated. -/
theorem C6_clock_label_not_overnight :
    sessionLabel 1320 = "post_market" ∧ sessionKey 1320 = "post_market"
    ∧ sessionLabel 1320 ≠ "overnight" := by
  decide

/-- C6 (amended): for every timestamp in the 20:00–04:00 window, the
Session Clock itself substitutes PostMarket: both the stored session
label and the quote-lookup key it returns are `post_market`, so the
quote-selection step applies no overnight-specific fallback and no
`overnight` label is ever produced. -/
theorem C6_overnight_fallback_inside_clock (t : ℕ)
    (hw : (1200 ≤ t ∧ t < 1440) ∨ t < 240) :
    sessionLabel t = "post_market" ∧ sessionKey t = "post_market" := by
  constructor
  · unfold sessionLabel; split_ifs <;> first | rfl | omega
  · unfold sessionKey; split_ifs <;> first | rfl | omega

/-- C6 witness: the clock output at 22:40 ET. -/
theorem C6_overnight_fallback_inside_clock_witness :
    sessionLabel 1360 = "post_market" ∧ sessionKey 1360 = "post_market" :=
  C6_overnight_fallback_inside_clock 1360 (Or.inl (by decide))

/-! ### Error handling of the pass (claim C7) -/

/-- C7: a reconciliation pass whose quote fetch fails — the network
call rejects or the payload is malformed so that the body throws — is a
no-op on the ledger: positions (current prices and unrealized P&L) and
both Market P&L aggregates are exactly the prior state, and the caught
exception never reaches the ledger. -/
theorem C7_failed_fetch_pass_is_noop :
    (∀ (t : ℕ) (s : LedgerState), refreshQuotePass t none s = s)
    ∧ (∀ (t : ℕ) (pm : PriceMap) (s : LedgerState),
        runUpdate (sessionKey t) pm s.positions (some 0) (some 0) = none →
        refreshQuotePass t (some pm) s = s) :=
  ⟨pass_fetch_failure, pass_body_throws⟩

/-- C7 witness: after a failed fetch and after a pass whose body throws,
`AAPL`'s stored price is still 185.40, not null or zero. -/
theorem C7_failed_fetch_pass_is_noop_witness :
    refreshQuotePass 600 none c7State = c7State
    ∧ refreshQuotePass 600 (some c7Pm) c7State = c7State := by
  refine ⟨C7_failed_fetch_pass_is_noop.1 600 c7State,
    C7_failed_fetch_pass_is_noop.2 600 c7Pm c7State ?_⟩
  decide

/-! ### Truthiness of price selection (claim C10) -/

/-- C10: when the resolved session's price field is present but falsy
(the number 0, `null`, or the empty string), the selection expression
falls back to the Regular-session price: it tests truthiness, not field
presence. -/
theorem C10_falsy_session_price_falls_back (ts : String) (q : QuoteRec) (v : JsVal)
    (hv : q.lookup (ts ++ "_price") = some v) (hf : jsTruthy v = false) :
    selectPrice ts q = q.lookup "regular_price" := by
  unfold selectPrice
  rw [hv]
  simp [hf]

/-- C10 witness: a present-but-zero, a `null`, and an empty-string
session price each fall back to `regular_price`. -/
theorem C10_falsy_session_price_falls_back_witness :
    selectPrice "pre_market" [("pre_market_price", JsVal.num 0), ("regular_price", JsVal.num 5)]
      = some (JsVal.num 5)
    ∧ selectPrice "post_market" [("post_market_price", JsVal.null), ("regular_price", JsVal.num 7)]
      = some (JsVal.num 7)
    ∧ selectPrice "pre_market" [("pre_market_price", JsVal.str ""), ("regular_price", JsVal.num 9)]
      = some (JsVal.num 9) := by
  refine ⟨?_, ?_, ?_⟩
  · rw [C10_falsy_session_price_falls_back "pre_market" _ (JsVal.num 0) (by decide) (by decide)]
    decide
  · rw [C10_falsy_session_price_falls_back "post_market" _ JsVal.null (by decide) (by decide)]
    decide
  · rw [C10_falsy_session_price_falls_back "pre_market" _ (JsVal.str "") (by decide) (by decide)]
    decide

/-! ### Price-selection rule (claim C3) -/

lemma selectPrice_eq_of_truthy (ts : String) (q : QuoteRec) (v : JsVal)
    (hv : q.lookup (ts ++ "_price") = some v) (ht : jsTruthy v = true) :
    selectPrice ts q = some v := by
  unfold selectPrice
  rw [hv]
  simp [ht]

lemma selectPrice_eq_of_falsy (ts : String) (q : QuoteRec) (v : JsVal)
    (hv : q.lookup (ts ++ "_price") = some v) (hf : jsTruthy v = false) :
    selectPrice ts q = q.lookup "regular_price" := by
  unfold selectPrice
  rw [hv]
  simp [hf]

lemma selectPrice_eq_of_absent (ts : String) (q : QuoteRec)
    (hv : q.lookup (ts ++ "_price") = none) :
    selectPrice ts q = q.lookup "regular_price" := by
  unfold selectPrice
  rw [hv]

/-- A spec-shaped record carries no `current_price` field, so the
regular-window lookup key always misses. -/
lemma lookup_current_of_wf (q : QuoteRec) (hq : wfQuoteRec q) :
    q.lookup "current_price" = none := by
  induction q with
  | nil => rfl
  | cons kv rest ih =>
    obtain ⟨k, v⟩ := kv
    have hk : k ∈ ["pre_market_price", "regular_price", "post_market_price", "overnight_price"] :=
      hq (k, v) (List.mem_cons_self _ _)
    have hne : ("current_price" == k) = false := by
      refine beq_eq_false_iff_ne.mpr fun h => ?_
      rw [← h] at hk
      exact absurd hk (by decide)
    simp only [List.lookup, hne]
    exact ih fun kv' h' => hq kv' (List.mem_cons_of_mem _ h')

lemma sessionKey_of_regular (t : ℕ) (h : 570 ≤ t ∧ t < 960) :
    sessionKey t = "current" ∧ sessionLabel t = "regular" := by
  constructor
  · unfold sessionKey; rw [if_pos h]
  · unfold sessionLabel; rw [if_pos h]

lemma sessionKey_eq_label_of_not_regular (t : ℕ) (h : ¬(570 ≤ t ∧ t < 960)) :
    sessionKey t = sessionLabel t := by
  unfold sessionKey sessionLabel
  rw [if_neg h, if_neg h]

/-- C3 (counterexample): at 05:00 ET (PreMarket) a record whose
`pre_market_price` field is present with value 0 does not have that
value selected — the Regular price 5 is selected instead, refuting the
claim that a present session-price field is always used. -/
theorem C3_present_session_price_not_selected :
    sessionLabel 300 = "pre_market"
    ∧ ([("pre_market_price", JsVal.num 0), ("regular_price", JsVal.num 5)] : QuoteRec).lookup
        ("pre_market" ++ "_price") = some (JsVal.num 0)
    ∧ selectPrice (sessionKey 300)
        [("pre_market_price", JsVal.num 0), ("regular_price", JsVal.num 5)] = some (JsVal.num 5)
    ∧ (JsVal.num 5) ≠ (JsVal.num 0) := by
  decide

/-- C3 (amended): for every spec-shaped quote record and every minute of
day, given the resolved session label `S`, the selected price is the
record's price for `S` when that field is present with a truthy value;
when that field is absent or falsy, the Regular-session price is
selected.  The selection is a per-symbol function of the current pass's
record and session, never cached. -/
theorem C3_session_price_selection (t : ℕ) (q : QuoteRec)
    (_ht : t < 1440) (hq : wfQuoteRec q) :
    (∀ v, q.lookup (sessionLabel t ++ "_price") = some v → jsTruthy v = true →
        selectPrice (sessionKey t) q = some v)
    ∧ (∀ v, q.lookup (sessionLabel t ++ "_price") = some v → jsTruthy v = false →
        selectPrice (sessionKey t) q = q.lookup "regular_price")
    ∧ (q.lookup (sessionLabel t ++ "_price") = none →
        selectPrice (sessionKey t) q = q.lookup "regular_price") := by
  by_cases hreg : 570 ≤ t ∧ t < 960
  · obtain ⟨hkey, hlab⟩ := sessionKey_of_regular t hreg
    rw [hkey, hlab]
    have habs : selectPrice "current" q = q.lookup "regular_price" :=
      selectPrice_eq_of_absent "current" q (lookup_current_of_wf q hq)
    refine ⟨fun v hv _ => ?_, fun _ _ _ => habs, fun _ => habs⟩
    rw [habs]
    exact hv
  · rw [sessionKey_eq_label_of_not_regular t hreg]
    exact ⟨fun v hv htr => selectPrice_eq_of_truthy _ q v hv htr,
      fun v hv hf => selectPrice_eq_of_falsy _ q v hv hf,
      fun hv => selectPrice_eq_of_absent _ q hv⟩

/-- C3 witness: a truthy PreMarket price is selected during PreMarket;
during Regular, a record carrying only `regular_price` has it
selected. -/
theorem C3_session_price_selection_witness :
    selectPrice (sessionKey 300)
      [("pre_market_price", JsVal.num 7), ("regular_price", JsVal.num 5)] = some (JsVal.num 7)
    ∧ selectPrice (sessionKey 600) [("regular_price", JsVal.num 5)] = some (JsVal.num 5) := by
  constructor
  · exact (C3_session_price_selection 300 _ (by decide) (by decide)).1
      (JsVal.num 7) (by decide) (by decide)
  · exact (C3_session_price_selection 600 [("regular_price", JsVal.num 5)]
      (by decide) (by decide)).1 (JsVal.num 5) (by decide) (by decide)

/-! ### Frame behaviour of partial price maps (claim C4) -/

/-- C4 (counterexample): with a price map covering only `AAPL` out of
`{AAPL, MSFT}`, the pass leaves the ledger completely unchanged — in
particular `AAPL`, though present in the mapping, does **not** get its
current price set, refuting the claim. -/
theorem C4_covered_symbol_not_updated :
    (c4Pm.lookup "AAPL").isSome = true
    ∧ refreshQuotePass 600 (some c4Pm) c4State = c4State
    ∧ c4State.positions.map Position.price = [none, none] := by
  decide

/-- C4 (amended): when the price map covers every held symbol, the pass
replaces each position by its per-symbol update (current price set from
the selection rule and unrealized P&L recomputed); but when any held
symbol is absent from the map, the lookup throws, the pass is caught and
aborts, and **every** position — including the ones present in the map —
retains its prior current price and P&L unchanged. -/
theorem C4_partial_update_frame (t : ℕ) (pm : PriceMap) (s : LedgerState) :
    ((∀ p ∈ s.positions, (pm.lookup p.symbol).isSome) →
      (refreshQuotePass t (some pm) s).positions =
        s.positions.map (updOf (sessionKey t) pm))
    ∧ ((∃ p ∈ s.positions, pm.lookup p.symbol = none) →
      refreshQuotePass t (some pm) s = s) := by
  constructor
  · intro hcov
    by_cases hne : s.positions.isEmpty
    · have hnil : s.positions = [] := List.isEmpty_iff.mp hne
      unfold refreshQuotePass
      rw [if_pos hne, hnil]
      rfl
    · rw [pass_covered t pm s hne hcov]
  · exact pass_missing_symbol t pm s

/-- C4 witness: with full coverage both positions are updated per the
selection rule; with partial coverage the pass is the identity. -/
theorem C4_partial_update_frame_witness :
    (refreshQuotePass 600
        (some [("AAPL", [("regular_price", JsVal.num 185)]),
               ("MSFT", [("regular_price", JsVal.num 100)])]) c4State).positions =
      c4State.positions.map
        (updOf (sessionKey 600)
          [("AAPL", [("regular_price", JsVal.num 185)]),
           ("MSFT", [("regular_price", JsVal.num 100)])])
    ∧ refreshQuotePass 600 (some c4Pm) c4State = c4State := by
  constructor
  · exact (C4_partial_update_frame 600 _ c4State).1 (by decide)
  · exact (C4_partial_update_frame 600 c4Pm c4State).2
      ⟨{ symbol := "MSFT", market := "US", quantity := 10, cost_price := 100 },
        by decide, by decide⟩

/-! ### Idempotence of the pass (claim C9) -/

/-- C9: applying the same price map twice in succession, at the same
resolved session, yields the same positions (current prices and
unrealized P&L) and the same Market P&L aggregates as applying it
once. -/
theorem C9_price_update_idempotent (t : ℕ) (pm : PriceMap) (s : LedgerState) :
    refreshQuotePass t (some pm) (refreshQuotePass t (some pm) s)
      = refreshQuotePass t (some pm) s := by
  by_cases hne : s.positions.isEmpty
  · have h : refreshQuotePass t (some pm) s = s := by
      unfold refreshQuotePass; rw [if_pos hne]
    rw [h]; exact h
  · by_cases hcov : ∀ p ∈ s.positions, (pm.lookup p.symbol).isSome
    · have hpc := pass_covered t pm s hne hcov
      rw [hpc]
      have hmap : (s.positions.map (updOf (sessionKey t) pm)).map (updOf (sessionKey t) pm)
          = s.positions.map (updOf (sessionKey t) pm) := by
        rw [List.map_map]
        exact List.map_congr_left fun p _ => updOf_idem (sessionKey t) pm p
      have hne' : ¬(s.positions.map (updOf (sessionKey t) pm)).isEmpty := by
        simpa using hne
      have hcov' : ∀ p ∈ s.positions.map (updOf (sessionKey t) pm),
          (pm.lookup p.symbol).isSome := by
        intro p hp
        obtain ⟨p0, hp0, rfl⟩ := List.mem_map.mp hp
        rw [updOf_symbol]
        exact hcov p0 hp0
      rw [pass_covered t pm _ hne' hcov']
      simp only [hmap]
    · have hmiss : ∃ p ∈ s.positions, pm.lookup p.symbol = none := by
        push_neg at hcov
        obtain ⟨p, hp, hn⟩ := hcov
        exact ⟨p, hp, Option.not_isSome_iff_eq_none.mp (by simpa using hn)⟩
      have h := pass_missing_symbol t pm s hmiss
      rw [h]; exact h

/-! ### The Market P&L aggregate invariant (claim C2) -/

lemma pass_preserves_inv (t : ℕ) (f : Option PriceMap) (s : LedgerState)
    (hs : mpnlInv s) : mpnlInv (refreshQuotePass t f s) := by
  cases f with
  | none => rw [pass_fetch_failure]; exact hs
  | some pm =>
    by_cases hne : s.positions.isEmpty
    · have h : refreshQuotePass t (some pm) s = s := by
        unfold refreshQuotePass; rw [if_pos hne]
      rw [h]; exact hs
    · by_cases hcov : ∀ p ∈ s.positions, (pm.lookup p.symbol).isSome
      · rw [pass_covered t pm s hne hcov]
        exact ⟨rfl, rfl⟩
      · have hmiss : ∃ p ∈ s.positions, pm.lookup p.symbol = none := by
          push_neg at hcov
          obtain ⟨p, hp, hn⟩ := hcov
          exact ⟨p, hp, Option.not_isSome_iff_eq_none.mp (by simpa using hn)⟩
        rw [pass_missing_symbol t pm s hmiss]; exact hs

/-- C2: starting from any state satisfying the Market P&L invariant
(such as a freshly seeded ledger), after any sequence of reconciliation
passes — successful, failed, or covering only a subset of the held
symbols — each market's P&L aggregate equals the sum of the
per-position unrealized P&L values over exactly the positions of that
market in the ledger at that moment. -/
theorem C2_marketPnl_aggregate_invariant (s : LedgerState) (hs : mpnlInv s)
    (updates : List (ℕ × Option PriceMap)) :
    mpnlInv (updates.foldl (fun st u => refreshQuotePass u.1 u.2 st) s) := by
  induction updates generalizing s with
  | nil => exact hs
  | cons u rest ih => exact ih _ (pass_preserves_inv u.1 u.2 s hs)

/-- C2 witness: the invariant holds at the seeded state and is
propagated through a successful pass, a partially-covering pass and a
failed fetch. -/
theorem C2_marketPnl_aggregate_invariant_witness :
    mpnlInv c2Seed
    ∧ mpnlInv
        ([((600 : ℕ),
            some [("AAPL", [("regular_price", JsVal.num 186)]),
                  ("0700.HK", [("regular_price", JsVal.num 310)])]),
          ((1000 : ℕ), some [("AAPL", [("regular_price", JsVal.num 187)])]),
          ((1300 : ℕ), (none : Option PriceMap))].foldl
          (fun st u => refreshQuotePass u.1 u.2 st) c2Seed) :=
  ⟨by decide, C2_marketPnl_aggregate_invariant c2Seed (by decide) _⟩

/-! ### The unrealized-P&L formula (claim C8) -/

lemma runUpdate_pnl_consistent (ts : String) (pm : PriceMap) :
    ∀ (l : List Position) (us hk : Option ℚ) (out : List Position × Option ℚ × Option ℚ),
      runUpdate ts pm l us hk = some out →
      ∀ p' ∈ out.1, ∀ x : ℚ, toNumberO p'.price = some x →
        p'.pnl = some (some ((x - p'.cost_price) * p'.quantity)) := by
  intro l
  induction l with
  | nil =>
    intro us hk out h p' hp' x hx
    simp only [runUpdate, Option.some.injEq] at h
    rw [← h] at hp'
    simp at hp'
  | cons p rest ih =>
    intro us hk out h p' hp' x hx
    cases hq : pm.lookup p.symbol with
    | none => simp only [runUpdate, hq] at h; exact absurd h (by simp)
    | some q =>
      simp only [runUpdate, hq] at h
      cases hrec : runUpdate ts pm rest
          (if p.market = "US" then jAdd us (pnlVal ts q p) else us)
          (if p.market = "HK" then jAdd hk (pnlVal ts q p) else hk) with
      | none => rw [hrec] at h; exact absurd h (by simp)
      | some out' =>
        obtain ⟨ps, u, hh⟩ := out'
        rw [hrec] at h
        simp only [Option.some.injEq] at h
        rw [← h] at hp'
        rcases List.mem_cons.mp hp' with hhead | htail
        · subst hhead
          have hx' : toNumberO (selectPrice ts q) = some x := hx
          simp only [updatePos_pnl, pnlVal, hx', jSub, jMul]
          rfl
        · exact ih _ _ (ps, u, hh) hrec p' htail x hx

/-- C8: for the position `{AAPL, quantity 50, cost 180.00}` and quote
response `{AAPL: {regular_price: 185.40}}` during the Regular session
(10:00 ET), the pass stores `current_price = 185.40` and
`unrealized_pnl = 270.00`; and in general every position written by the
pass body satisfies `unrealized_pnl = (current_price - cost_price) *
quantity`. -/
theorem C8_unrealized_pnl_formula :
    refreshQuotePass 600 (some c8Pm) c8State =
      { c8State with positions := [c8After], mpnlUS := some 270, mpnlHK := some 0 }
    ∧ (∀ (ts : String) (pm : PriceMap) (l : List Position) (us hk : Option ℚ)
        (out : List Position × Option ℚ × Option ℚ),
        runUpdate ts pm l us hk = some out →
        ∀ p' ∈ out.1, ∀ x : ℚ, toNumberO p'.price = some x →
          p'.pnl = some (some ((x - p'.cost_price) * p'.quantity))) := by
  constructor
  · simp +decide [refreshQuotePass, applyQuoteResponse, c8State, c8Pm, c8Pos, c8After,
      runUpdate, updatePos, pnlVal, selectPrice, toNumberO, jsTruthy, jAdd, jSub, jMul,
      sessionKey, List.lookup]
    norm_num
  · exact fun ts pm l us hk out h p' hp' x hx =>
      runUpdate_pnl_consistent ts pm l us hk out h p' hp' x hx

/-- C8 witness: the general formula applied to the concrete `AAPL`
run: P&L of the written position is `(185.40 - 180.00) * 50`. -/
theorem C8_unrealized_pnl_formula_witness :
    c8After.pnl = some (some (((927/5 : ℚ) - c8After.cost_price) * c8After.quantity)) := by
  refine C8_unrealized_pnl_formula.2 "current" c8Pm [c8Pos] (some 0) (some 0)
    ([c8After], some 270, some 0) ?_ c8After (by simp) (927/5) ?_
  · simp +decide [c8Pm, c8Pos, c8After, runUpdate, updatePos, pnlVal, selectPrice,
      toNumberO, jsTruthy, jAdd, jSub, jMul, List.lookup]
    norm_num
  · rfl

/-! ### Stale responses across an account switch (claim C1) -/

/-- C1 (the code at the failing input): the response handler is blind to
the originating account context — `applyQuoteResponse` gives the same
result whatever context tag the request carried — and a stale
`"paper-v1"` response arriving after `switchAccount("paper-v2")` is NOT
discarded: it overwrites the new context's freshly cleared Position
Ledger with the old context's repriced position and sets the new
context's US Market P&L aggregate to 300, contradicting the claim that
such a response leaves the new context's ledger unaffected. -/
theorem C1_stale_response_not_discarded :
    (∀ (o o' : String) (caps : List Position) (t : ℕ) (pm : PriceMap) (s : LedgerState),
        applyQuoteResponse o caps t pm s = applyQuoteResponse o' caps t pm s)
    ∧ (applyQuoteResponse "paper-v1" [c1OldPos] 600 c1Pm c1NewState).positions ≠ []
    ∧ (applyQuoteResponse "paper-v1" [c1OldPos] 600 c1Pm c1NewState).mpnlUS = some 300
    ∧ applyQuoteResponse "paper-v1" [c1OldPos] 600 c1Pm c1NewState ≠ c1NewState := by
  have happ : applyQuoteResponse "paper-v1" [c1OldPos] 600 c1Pm c1NewState =
      { c1NewState with
        positions := [{ c1OldPos with price := some (JsVal.num 186), pnl := some (some 300) }],
        mpnlUS := some 300, mpnlHK := some 0 } := by
    simp +decide [applyQuoteResponse, runUpdate, updatePos, pnlVal, selectPrice,
      toNumberO, jsTruthy, jAdd, jSub, jMul, sessionKey, c1Pm, c1OldPos, List.lookup]
    norm_num
  refine ⟨fun o o' caps t pm s => rfl, ?_, ?_, ?_⟩
  · rw [happ]; simp
  · rw [happ]
  · rw [happ]
    intro hcontra
    have := congrArg LedgerState.positions hcontra
    simp [c1NewState, switchAccountReset] at this

end Quantrade
